import Mathlib

/-!
Shallow embedding of the JSON-RPC 2.0 request decoder (`src/request.rs`).

The decoder receives an already-parsed generic JSON value tree and classifies
it, by attempt-and-fallback structural probing ("peek"), into a `Call`
(`MethodCall` / `Notification` / `Invalid`) and, at the top level, into a
`Request` (`Single` / `Batch`).

The `Id`, `Params`, `Version` and `Value` types and the `peek` mechanism are
collaborators of `request.rs` that are not part of the visible source; they
are modelled from the spec where so marked.  The derived field-level decoding
of the two structs (`#[derive(Deserialize)]`) rejects unknown keys — the
repository's own test asserts that an object carrying an extra `id` key fails
to decode as `Notification` — and the spec states "rejection of
unknown/missing required fields"; the peek functions below embed that
strictness.
-/

namespace JsonRpc

/-- Modelled from the spec: the generic JSON value tree produced by the
external JSON parser ("one generic JSON value (object, array, or other)").
Objects are finite key-value maps, embedded as association lists with
first-occurrence lookup. -/
inductive Value where
  | null : Value
  | bool : Bool → Value
  | num : Int → Value
  | str : String → Value
  | arr : List Value → Value
  | obj : List (String × Value) → Value

/-- Modelled from the spec: "ProtocolVersion: enumerated value that must
textually equal \"2.0\"; decoding fails for any other value." -/
inductive Version where
  | v2 : Version
deriving DecidableEq

/-- Modelled from the spec: "Id (external): one of string, integer, null." -/
inductive Id where
  | num : Int → Id
  | str : String → Id
  | null : Id
deriving DecidableEq

/-- Modelled from the spec: "Params (external): either an ordered sequence of
values or a mapping of name to value." -/
inductive Params where
  | arr : List Value → Params
  | map : List (String × Value) → Params

/-- Embeds the struct `MethodCall` of `request.rs` (fields `jsonrpc`,
`method`, `params`, `id`). -/
structure MethodCall where
  jsonrpc : Version
  method : String
  params : Option Params
  id : Id

/-- Embeds the struct `Notification` of `request.rs` (fields `jsonrpc`,
`method`, `params`; no `id`). -/
structure Notification where
  jsonrpc : Version
  method : String
  params : Option Params

/-- Embeds the enum `Call` of `request.rs`. -/
inductive Call where
  | methodCall : MethodCall → Call
  | notification : Notification → Call
  | invalid : Call

/-- Embeds the enum `Request` of `request.rs`. -/
inductive Request where
  | single : Call → Request
  | batch : List Call → Request

/-- Modelled from the spec: decoding of the `jsonrpc` field — "Version
checking is strict equality against the literal \"2.0\"". -/
def decodeVersion : Value → Except Unit Version
  | .str s => if s = "2.0" then .ok .v2 else .error ()
  | _ => .error ()

/-- Decoding of the `method` field: the struct field has type `String`, so
any JSON string (and only a string) decodes. -/
def decodeString : Value → Except Unit String
  | .str s => .ok s
  | _ => .error ()

/-- Modelled from the spec: "`Id` decodes as exactly one of string, integer,
null and fails decoding of the enclosing call if the `id` field holds any
other JSON type." -/
def decodeId : Value → Except Unit Id
  | .num n => .ok (.num n)
  | .str s => .ok (.str s)
  | .null => .ok .null
  | _ => .error ()

/-- The JSON value a given `Id` was decoded from; `decodeId` succeeds exactly
on these values and returns the id unchanged. -/
def Id.toValue : Id → Value
  | .num n => .num n
  | .str s => .str s
  | .null => .null

/-- Modelled from the spec: decoding of a present `params` field of type
`Option<Params>` — "`Params` decodes as exactly one of array-of-value,
object-of-value and likewise propagates failure upward into the relevant
probe"; a present `null` decodes to `none` via the external option decoder. -/
def decodeOptParams : Value → Except Unit (Option Params)
  | .null => .ok none
  | .arr xs => .ok (some (.arr xs))
  | .obj fs => .ok (some (.map fs))
  | _ => .error ()

/-- First-occurrence lookup of a key in a JSON object's field list. -/
def lookupField (k : String) : List (String × Value) → Option Value
  | [] => none
  | kv :: rest => if kv.1 = k then some kv.2 else lookupField k rest

/-- The field names of the `Notification` struct. -/
def notifKeys : List String := ["jsonrpc", "method", "params"]

/-- The field names of the `MethodCall` struct. -/
def methodCallKeys : List String := ["jsonrpc", "method", "params", "id"]

/-- Embeds `Notification::peek`: strict field-wise decoding of the
`Notification` struct from a JSON value, parametric in the external decoder
`pdec` used for a present `params` value.  Requires an object whose every key
is a declared field, a `jsonrpc` field decoding as Version, a `method` field
decoding as String; a missing optional `params` yields `none`. -/
def peekNotificationWith (pdec : Value → Except Unit (Option Params)) :
    Value → Except Unit Notification
  | .obj fields =>
    if fields.all (fun kv => decide (kv.1 ∈ notifKeys)) then
      match lookupField "jsonrpc" fields, lookupField "method" fields with
      | some jv, some mv =>
        match decodeVersion jv, decodeString mv with
        | .ok ver, .ok m =>
          match lookupField "params" fields with
          | none => .ok ⟨ver, m, none⟩
          | some pv => (pdec pv).map (fun p => ⟨ver, m, p⟩)
        | _, _ => .error ()
      | _, _ => .error ()
    else .error ()
  | _ => .error ()

/-- Embeds `MethodCall::peek`: like the Notification probe but with a
required `id` field decoding as `Id`. -/
def peekMethodCallWith (pdec : Value → Except Unit (Option Params)) :
    Value → Except Unit MethodCall
  | .obj fields =>
    if fields.all (fun kv => decide (kv.1 ∈ methodCallKeys)) then
      match lookupField "jsonrpc" fields, lookupField "method" fields,
            lookupField "id" fields with
      | some jv, some mv, some iv =>
        match decodeVersion jv, decodeString mv, decodeId iv with
        | .ok ver, .ok m, .ok i =>
          match lookupField "params" fields with
          | none => .ok ⟨ver, m, none, i⟩
          | some pv => (pdec pv).map (fun p => ⟨ver, m, p, i⟩)
        | _, _, _ => .error ()
      | _, _, _ => .error ()
    else .error ()
  | _ => .error ()

/-- Embeds `Value::deserialize` applied to an already-parsed value: always
succeeds, returning the value itself (the fallback arm of `Call`'s
deserializer). -/
def Value.deserialize (v : Value) : Except Unit Value := .ok v

/-- Embeds `impl Deserialize for Call` (the `or_else` probe chain of
`request.rs`), parametric in the external params decoder: try
`Notification::peek`, else `MethodCall::peek`, else accept any value as
`Call::Invalid`. -/
def Call.deserializeWith (pdec : Value → Except Unit (Option Params))
    (v : Value) : Except Unit Call :=
  match (peekNotificationWith pdec v).map Call.notification with
  | .ok c => .ok c
  | .error _ =>
    match (peekMethodCallWith pdec v).map Call.methodCall with
    | .ok c => .ok c
    | .error _ => (Value.deserialize v).map (fun _ => Call.invalid)

/-- The classification function of the spec (`classify`), parametric in the
external params decoder: the total function underlying `Call`'s
deserializer. -/
def classifyWith (pdec : Value → Except Unit (Option Params)) (v : Value) :
    Call :=
  match peekNotificationWith pdec v with
  | .ok n => .notification n
  | .error _ =>
    match peekMethodCallWith pdec v with
    | .ok m => .methodCall m
    | .error _ => .invalid

/-- The Notification probe with the concrete external params decoder. -/
def Notification.peek : Value → Except Unit Notification :=
  peekNotificationWith decodeOptParams

/-- The MethodCall probe with the concrete external params decoder. -/
def MethodCall.peek : Value → Except Unit MethodCall :=
  peekMethodCallWith decodeOptParams

/-- `impl Deserialize for Call` with the concrete external params decoder. -/
def Call.deserialize : Value → Except Unit Call :=
  Call.deserializeWith decodeOptParams

/-- `classify` of the spec with the concrete external params decoder. -/
def classify : Value → Call :=
  classifyWith decodeOptParams

/-- Element-wise deserialization of a JSON array into `Vec<Call>` (the
sequence visitor of the derived `Vec` deserializer). -/
def deserializeList : List Value → Except Unit (List Call)
  | [] => .ok []
  | v :: rest =>
    match Call.deserialize v with
    | .ok c => (deserializeList rest).map (fun cs => c :: cs)
    | .error e => .error e

/-- Embeds `<Vec<Call> as Peek>::peek`: succeeds exactly on JSON arrays,
deserializing every element as a `Call`. -/
def peekBatch : Value → Except Unit (List Call)
  | .arr xs => deserializeList xs
  | _ => .error ()

/-- Embeds `impl Deserialize for Request`: try the batch (array) probe, else
deserialize a single `Call`. -/
def Request.deserialize (v : Value) : Except Unit Request :=
  match (peekBatch v).map Request.batch with
  | .ok r => .ok r
  | .error _ => (Call.deserialize v).map Request.single

/-- The resolution function of the spec (`resolve`): the total function
underlying `Request`'s deserializer. -/
def resolve (v : Value) : Request :=
  match v with
  | .arr xs => .batch (xs.map classify)
  | _ => .single (classify v)

/-! ## Helper lemmas -/

/-- The protocol-version type has a single inhabitant. -/
theorem Version.eq_v2 (ver : Version) : ver = .v2 := by cases ver; rfl

/-- Lookup distributes over list append, preferring the left list. -/
theorem lookupField_append (k : String) (l₁ l₂ : List (String × Value)) :
    lookupField k (l₁ ++ l₂) =
      match lookupField k l₁ with
      | some v => some v
      | none => lookupField k l₂ := by
  induction l₁ with
  | nil => simp [lookupField]
  | cons kv rest ih =>
    by_cases hk : kv.1 = k
    · simp [lookupField, hk]
    · simp [lookupField, hk, ih]

/-- A successful lookup exhibits a member of the field list. -/
theorem lookupField_some_mem {k : String} {l : List (String × Value)}
    {v : Value} (h : lookupField k l = some v) : (k, v) ∈ l := by
  induction l with
  | nil => simp [lookupField] at h
  | cons kv rest ih =>
    obtain ⟨k1, v1⟩ := kv
    by_cases hk : k1 = k
    · subst hk
      simp [lookupField] at h
      cases h
      exact List.mem_cons_self _ _
    · simp [lookupField, hk] at h
      exact List.mem_cons_of_mem _ (ih h)

/-- Version decoding succeeds exactly on the JSON string "2.0". -/
theorem decodeVersion_ok_iff (v : Value) (ver : Version) :
    decodeVersion v = .ok ver ↔ v = .str "2.0" := by
  cases ver
  cases v <;> simp [decodeVersion]

/-- String decoding succeeds exactly on JSON strings and is the identity. -/
theorem decodeString_ok_iff (v : Value) (s : String) :
    decodeString v = .ok s ↔ v = .str s := by
  cases v <;> simp [decodeString]

/-- Id decoding succeeds exactly on the image of `Id.toValue` and inverts
it. -/
theorem decodeId_ok_iff (v : Value) (i : Id) :
    decodeId v = .ok i ↔ v = i.toValue := by
  cases v <;> cases i <;> simp [decodeId, Id.toValue]

/-- `decodeId` is a left inverse of `Id.toValue`. -/
theorem decodeId_toValue (i : Id) : decodeId i.toValue = .ok i := by
  cases i <;> rfl

/-- Characterization of a successful Notification probe: all keys declared,
`jsonrpc` is the string "2.0", `method` is a string, and `params` is either
absent or accepted by the external params decoder. -/
theorem peekNotificationWith_ok_iff
    (pdec : Value → Except Unit (Option Params))
    (fields : List (String × Value)) (n : Notification) :
    peekNotificationWith pdec (Value.obj fields) = .ok n ↔
      fields.all (fun kv => decide (kv.1 ∈ notifKeys)) = true ∧
      lookupField "jsonrpc" fields = some (Value.str "2.0") ∧
      lookupField "method" fields = some (Value.str n.method) ∧
      ((lookupField "params" fields = none ∧ n.params = none) ∨
       (∃ pv, lookupField "params" fields = some pv ∧
              pdec pv = .ok n.params)) := by
  obtain ⟨ver, m, p⟩ := n
  cases ver
  constructor
  · intro h
    simp only [peekNotificationWith] at h
    split at h
    case isFalse => simp at h
    case isTrue hall =>
    split at h
    case h_2 => simp at h
    case h_1 jv mv hj hm =>
    split at h
    case h_2 => simp at h
    case h_1 ver' m' hdv hds =>
    cases ver'
    rw [decodeVersion_ok_iff] at hdv
    rw [decodeString_ok_iff] at hds
    subst hdv
    subst hds
    split at h
    case h_1 hp =>
      cases h
      exact ⟨hall, hj, hm, Or.inl ⟨hp, rfl⟩⟩
    case h_2 pv hp =>
      cases hpd : pdec pv with
      | error e => rw [hpd] at h; simp [Except.map] at h
      | ok q =>
        rw [hpd] at h
        simp [Except.map] at h
        obtain ⟨hm', hp'⟩ := h
        subst hm'
        subst hp'
        exact ⟨hall, hj, hm, Or.inr ⟨pv, hp, hpd⟩⟩
  · rintro ⟨hall, hj, hm, hp⟩
    dsimp only at hm hp
    rcases hp with ⟨hpn, hpe⟩ | ⟨pv, hpv, hpd⟩
    · subst hpe
      simp [peekNotificationWith, hall, hj, hm, hpn, decodeVersion,
            decodeString]
    · simp [peekNotificationWith, hall, hj, hm, hpv, hpd, decodeVersion,
            decodeString, Except.map]

/-- Characterization of a successful MethodCall probe: all keys declared,
`jsonrpc` is the string "2.0", `method` is a string, `id` is present holding
a string, integer or null decoded exactly, and `params` is either absent or
accepted by the external params decoder. -/
theorem peekMethodCallWith_ok_iff
    (pdec : Value → Except Unit (Option Params))
    (fields : List (String × Value)) (c : MethodCall) :
    peekMethodCallWith pdec (Value.obj fields) = .ok c ↔
      fields.all (fun kv => decide (kv.1 ∈ methodCallKeys)) = true ∧
      lookupField "jsonrpc" fields = some (Value.str "2.0") ∧
      lookupField "method" fields = some (Value.str c.method) ∧
      lookupField "id" fields = some c.id.toValue ∧
      ((lookupField "params" fields = none ∧ c.params = none) ∨
       (∃ pv, lookupField "params" fields = some pv ∧
              pdec pv = .ok c.params)) := by
  obtain ⟨ver, m, p, i⟩ := c
  cases ver
  constructor
  · intro h
    simp only [peekMethodCallWith] at h
    split at h
    case isFalse => simp at h
    case isTrue hall =>
    split at h
    case h_2 => simp at h
    case h_1 jv mv iv hj hm hi =>
    split at h
    case h_2 => simp at h
    case h_1 ver' m' i' hdv hds hdi =>
    cases ver'
    rw [decodeVersion_ok_iff] at hdv
    rw [decodeString_ok_iff] at hds
    rw [decodeId_ok_iff] at hdi
    subst hdv
    subst hds
    subst hdi
    split at h
    case h_1 hp =>
      cases h
      exact ⟨hall, hj, hm, hi, Or.inl ⟨hp, rfl⟩⟩
    case h_2 pv hp =>
      cases hpd : pdec pv with
      | error e => rw [hpd] at h; simp [Except.map] at h
      | ok q =>
        rw [hpd] at h
        simp [Except.map] at h
        obtain ⟨hm', hp', hi'⟩ := h
        subst hm'
        subst hp'
        subst hi'
        exact ⟨hall, hj, hm, hi, Or.inr ⟨pv, hp, hpd⟩⟩
  · rintro ⟨hall, hj, hm, hi, hp⟩
    dsimp only at hm hi hp
    rcases hp with ⟨hpn, hpe⟩ | ⟨pv, hpv, hpd⟩
    · subst hpe
      simp [peekMethodCallWith, hall, hj, hm, hi, hpn, decodeVersion,
            decodeString, decodeId_toValue]
    · simp [peekMethodCallWith, hall, hj, hm, hi, hpv, hpd, decodeVersion,
            decodeString, decodeId_toValue, Except.map]

/-- An object containing any key outside `ks` fails the all-keys check
against `ks`. -/
theorem all_keys_false_of_mem {fields : List (String × Value)} {k : String}
    {w : Value} {ks : List String} (hmem : (k, w) ∈ fields) (hk : k ∉ ks) :
    fields.all (fun kv => decide (kv.1 ∈ ks)) = false := by
  rw [List.all_eq_false]
  exact ⟨(k, w), hmem, by simpa using hk⟩

/-- Notification keys are a subset of MethodCall keys, lifted to the
all-keys check. -/
theorem all_mc_of_all_notif {fields : List (String × Value)}
    (h : fields.all (fun kv => decide (kv.1 ∈ notifKeys)) = true) :
    fields.all (fun kv => decide (kv.1 ∈ methodCallKeys)) = true := by
  rw [List.all_eq_true] at h ⊢
  intro kv hkv
  have hmem := h kv hkv
  simp only [decide_eq_true_eq, notifKeys, methodCallKeys] at hmem ⊢
  simp at hmem ⊢
  tauto

/-- The Notification probe fails when the all-keys check fails. -/
theorem peekNotificationWith_error_of_all_false
    {pdec : Value → Except Unit (Option Params)}
    {fields : List (String × Value)}
    (h : fields.all (fun kv => decide (kv.1 ∈ notifKeys)) = false) :
    peekNotificationWith pdec (Value.obj fields) = .error () := by
  simp [peekNotificationWith, h]

/-- The MethodCall probe fails when the all-keys check fails. -/
theorem peekMethodCallWith_error_of_all_false
    {pdec : Value → Except Unit (Option Params)}
    {fields : List (String × Value)}
    (h : fields.all (fun kv => decide (kv.1 ∈ methodCallKeys)) = false) :
    peekMethodCallWith pdec (Value.obj fields) = .error () := by
  simp [peekMethodCallWith, h]

/-- Classification returns the Notification when its probe succeeds. -/
theorem classifyWith_notification
    {pdec : Value → Except Unit (Option Params)}
    {v : Value} {n : Notification}
    (h : peekNotificationWith pdec v = .ok n) :
    classifyWith pdec v = .notification n := by
  simp [classifyWith, h]

/-- Classification returns the MethodCall when the Notification probe fails
and the MethodCall probe succeeds. -/
theorem classifyWith_methodCall
    {pdec : Value → Except Unit (Option Params)}
    {v : Value} {c : MethodCall}
    (h1 : peekNotificationWith pdec v = .error ())
    (h2 : peekMethodCallWith pdec v = .ok c) :
    classifyWith pdec v = .methodCall c := by
  simp [classifyWith, h1, h2]

/-- Classification degrades to Invalid when neither probe succeeds. -/
theorem classifyWith_invalid_of_not_ok
    {pdec : Value → Except Unit (Option Params)} {v : Value}
    (h1 : ∀ n, peekNotificationWith pdec v ≠ .ok n)
    (h2 : ∀ c, peekMethodCallWith pdec v ≠ .ok c) :
    classifyWith pdec v = .invalid := by
  unfold classifyWith
  cases hn : peekNotificationWith pdec v with
  | ok n => exact absurd hn (h1 n)
  | error e =>
    cases hc : peekMethodCallWith pdec v with
    | ok c => exact absurd hc (h2 c)
    | error e2 => rfl

/-- Classification never returns a Notification once the Notification probe
has failed. -/
theorem classifyWith_ne_notification_of_error
    {pdec : Value → Except Unit (Option Params)} {v : Value}
    (h : peekNotificationWith pdec v = .error ()) (n : Notification) :
    classifyWith pdec v ≠ .notification n := by
  unfold classifyWith
  rw [h]
  cases peekMethodCallWith pdec v <;> simp

/-- The `Call` deserializer never errors: it returns the classification. -/
theorem Call.deserializeWith_eq (pdec : Value → Except Unit (Option Params))
    (v : Value) :
    Call.deserializeWith pdec v = .ok (classifyWith pdec v) := by
  unfold Call.deserializeWith classifyWith
  cases peekNotificationWith pdec v <;> cases peekMethodCallWith pdec v <;>
    simp [Except.map, Value.deserialize]

/-- The concrete `Call` deserializer never errors. -/
theorem Call.deserialize_eq_classify (v : Value) :
    Call.deserialize v = .ok (classify v) :=
  Call.deserializeWith_eq decodeOptParams v

/-- Element-wise array deserialization never errors: it maps `classify`. -/
theorem deserializeList_eq (vs : List Value) :
    deserializeList vs = .ok (vs.map classify) := by
  induction vs with
  | nil => rfl
  | cons v rest ih =>
    simp [deserializeList, Call.deserialize_eq_classify, ih, Except.map]

/-- The `Request` deserializer never errors: it returns the resolution. -/
theorem Request.deserialize_eq_resolve (v : Value) :
    Request.deserialize v = .ok (resolve v) := by
  cases v <;>
    simp [Request.deserialize, peekBatch, resolve, Call.deserialize_eq_classify,
          deserializeList_eq, Except.map]

/-- An object whose keys all lie in the Notification fields has no `id`
key. -/
theorem lookupField_id_none_of_notifKeys {fields : List (String × Value)}
    (hall : fields.all (fun kv => decide (kv.1 ∈ notifKeys)) = true) :
    lookupField "id" fields = none := by
  cases h : lookupField "id" fields with
  | none => rfl
  | some v =>
    exfalso
    have hmem := lookupField_some_mem h
    rw [List.all_eq_true] at hall
    have hin := hall _ hmem
    simp [notifKeys] at hin

/-! ## Claims -/

/-- C1 (counterexample): an object carrying every field of a well-formed
Notification plus an `id` key whose value is a boolean — a JSON type `Id`
does not decode — classifies as `Call.invalid`, not `Call.methodCall` as the
claim states; the id-less object is indeed a well-formed Notification. -/
theorem call_with_invalid_id_counterexample :
    Notification.peek (Value.obj [("jsonrpc", Value.str "2.0"),
        ("method", Value.str "update")]) =
      .ok ⟨Version.v2, "update", none⟩ ∧
    classify (Value.obj [("jsonrpc", Value.str "2.0"),
        ("method", Value.str "update"), ("id", Value.bool true)]) =
      Call.invalid :=
  ⟨rfl, rfl⟩

/-- C1 (amended): for every object that decodes as a well-formed
Notification and has no `id` key, adding an `id` key whose value is a valid
`Id` (string, integer, or null) flips classification to `Call.methodCall`
with the Notification's fields and the decoded id; and with ANY value under
the `id` key the extended object is never classified as a Notification. -/
theorem notification_plus_id_flips_to_methodCall
    (fields : List (String × Value)) (n : Notification) (i : Id)
    (hn : Notification.peek (Value.obj fields) = .ok n)
    (hid : lookupField "id" fields = none) :
    classify (Value.obj (fields ++ [("id", Id.toValue i)])) =
      Call.methodCall ⟨n.jsonrpc, n.method, n.params, i⟩ ∧
    (∀ (idv : Value) (n' : Notification),
       classify (Value.obj (fields ++ [("id", idv)])) ≠
         Call.notification n') := by
  replace hn := (peekNotificationWith_ok_iff decodeOptParams fields n).mp hn
  obtain ⟨hall, hj, hm, hp⟩ := hn
  constructor
  · have hallE : (fields ++ [("id", Id.toValue i)]).all
        (fun kv => decide (kv.1 ∈ methodCallKeys)) = true := by
      rw [List.all_append, all_mc_of_all_notif hall]
      rfl
    have hjE : lookupField "jsonrpc" (fields ++ [("id", Id.toValue i)]) =
        some (Value.str "2.0") := by
      rw [lookupField_append, hj]
    have hmE : lookupField "method" (fields ++ [("id", Id.toValue i)]) =
        some (Value.str n.method) := by
      rw [lookupField_append, hm]
    have hidE : lookupField "id" (fields ++ [("id", Id.toValue i)]) =
        some i.toValue := by
      rw [lookupField_append, hid]
      rfl
    have hnotifE : peekNotificationWith decodeOptParams
        (Value.obj (fields ++ [("id", Id.toValue i)])) = .error () := by
      apply peekNotificationWith_error_of_all_false
      apply all_keys_false_of_mem
        (List.mem_append_right fields (List.mem_cons_self _ _))
      decide
    apply classifyWith_methodCall hnotifE
    apply (peekMethodCallWith_ok_iff _ _ _).mpr
    refine ⟨hallE, hjE, hmE, hidE, ?_⟩
    rcases hp with ⟨hpn, hpe⟩ | ⟨pv, hpv, hpd⟩
    · left
      constructor
      · rw [lookupField_append, hpn]
        rfl
      · exact hpe
    · right
      refine ⟨pv, ?_, hpd⟩
      rw [lookupField_append, hpv]
  · intro idv n'
    apply classifyWith_ne_notification_of_error
    apply peekNotificationWith_error_of_all_false
    apply all_keys_false_of_mem
      (List.mem_append_right fields (List.mem_cons_self ("id", idv) []))
    decide

/-- C1 (witness): a concrete well-formed Notification object extended with
`id: 1` classifies as the corresponding MethodCall. -/
theorem notification_plus_id_flips_to_methodCall_witness :
    classify (Value.obj ([("jsonrpc", Value.str "2.0"),
        ("method", Value.str "update")] ++
        [("id", Id.toValue (Id.num 1))])) =
      Call.methodCall ⟨Version.v2, "update", none, Id.num 1⟩ :=
  (notification_plus_id_flips_to_methodCall
    [("jsonrpc", Value.str "2.0"), ("method", Value.str "update")]
    ⟨Version.v2, "update", none⟩ (Id.num 1) rfl rfl).1

/-- C2: the decode entry points of `Call` and `Request` are total — for
every already-parsed JSON value they return `Except.ok` (never an error),
with every structural mismatch absorbed into `Call.invalid` by `classify`
and `resolve`. -/
theorem decode_total (v : Value) :
    Call.deserialize v = .ok (classify v) ∧
    Request.deserialize v = .ok (resolve v) :=
  ⟨Call.deserialize_eq_classify v, Request.deserialize_eq_resolve v⟩

/-- C3 (counterexample): an object with `jsonrpc:"2.0"`, a `method` string
and no `id` key, but an extra unrecognized key, classifies as `Call.invalid`
rather than `Call.notification` as the claim states. -/
theorem notification_extra_key_counterexample :
    classify (Value.obj [("jsonrpc", Value.str "2.0"),
        ("method", Value.str "update"), ("extra", Value.null)]) =
      Call.invalid := rfl

/-- C3 (amended): for every object whose keys all lie in the Notification
fields (hence no `id` key and no unknown key), with `jsonrpc` the string
"2.0" and `method` a string, classification yields `Call.notification` with
the method extracted — whether `params` is absent or present with a value
the external params decoder accepts. -/
theorem notification_classification
    (fields : List (String × Value)) (m : String)
    (hall : fields.all (fun kv => decide (kv.1 ∈ notifKeys)) = true)
    (hj : lookupField "jsonrpc" fields = some (Value.str "2.0"))
    (hm : lookupField "method" fields = some (Value.str m)) :
    (lookupField "params" fields = none →
      classify (Value.obj fields) =
        Call.notification ⟨Version.v2, m, none⟩) ∧
    (∀ pv p, lookupField "params" fields = some pv →
      decodeOptParams pv = .ok p →
      classify (Value.obj fields) =
        Call.notification ⟨Version.v2, m, p⟩) := by
  constructor
  · intro hpn
    exact classifyWith_notification
      ((peekNotificationWith_ok_iff _ _ _).mpr
        ⟨hall, hj, hm, Or.inl ⟨hpn, rfl⟩⟩)
  · intro pv p hpv hpd
    exact classifyWith_notification
      ((peekNotificationWith_ok_iff _ _ _).mpr
        ⟨hall, hj, hm, Or.inr ⟨pv, hpv, hpd⟩⟩)

/-- C3 (witness): the spec's round-trip scenario 1 — the concrete
Notification object with params `[1,2]` classifies as a Notification. -/
theorem notification_classification_witness :
    classify (Value.obj [("jsonrpc", Value.str "2.0"),
        ("method", Value.str "update"),
        ("params", Value.arr [Value.num 1, Value.num 2])]) =
      Call.notification ⟨Version.v2, "update",
        some (Params.arr [Value.num 1, Value.num 2])⟩ :=
  (notification_classification
      [("jsonrpc", Value.str "2.0"), ("method", Value.str "update"),
       ("params", Value.arr [Value.num 1, Value.num 2])]
      "update" rfl rfl rfl).2
    (Value.arr [Value.num 1, Value.num 2])
    (some (Params.arr [Value.num 1, Value.num 2])) rfl rfl

/-- C4 (counterexample): an object with `jsonrpc:"2.0"`, a `method` string
and an integer `id`, but an extra unrecognized key, classifies as
`Call.invalid` rather than `Call.methodCall` as the claim states. -/
theorem methodCall_extra_key_counterexample :
    classify (Value.obj [("jsonrpc", Value.str "2.0"),
        ("method", Value.str "update"), ("id", Value.num 1),
        ("extra", Value.null)]) = Call.invalid := rfl

/-- C4 (amended): for every object whose keys all lie in the MethodCall
fields, with `jsonrpc` the string "2.0", `method` a string, an `id` key
holding a string, integer or null, and `params` absent or decodable,
classification yields `Call.methodCall` with the id decoded exactly as the
input; and any object whose `id` key holds a value of any other JSON type
classifies as `Call.invalid`. -/
theorem methodCall_classification :
    (∀ (fields : List (String × Value)) (m : String) (i : Id),
       fields.all (fun kv => decide (kv.1 ∈ methodCallKeys)) = true →
       lookupField "jsonrpc" fields = some (Value.str "2.0") →
       lookupField "method" fields = some (Value.str m) →
       lookupField "id" fields = some i.toValue →
       (lookupField "params" fields = none →
          classify (Value.obj fields) =
            Call.methodCall ⟨Version.v2, m, none, i⟩) ∧
       (∀ pv p, lookupField "params" fields = some pv →
          decodeOptParams pv = .ok p →
          classify (Value.obj fields) =
            Call.methodCall ⟨Version.v2, m, p, i⟩)) ∧
    (∀ (fields : List (String × Value)) (iv : Value),
       lookupField "id" fields = some iv →
       decodeId iv = .error () →
       classify (Value.obj fields) = Call.invalid) := by
  constructor
  · intro fields m i hall hj hm hi
    have hnotif : peekNotificationWith decodeOptParams (Value.obj fields) =
        .error () :=
      peekNotificationWith_error_of_all_false
        (all_keys_false_of_mem (lookupField_some_mem hi) (by decide))
    constructor
    · intro hpn
      exact classifyWith_methodCall hnotif
        ((peekMethodCallWith_ok_iff _ _ _).mpr
          ⟨hall, hj, hm, hi, Or.inl ⟨hpn, rfl⟩⟩)
    · intro pv p hpv hpd
      exact classifyWith_methodCall hnotif
        ((peekMethodCallWith_ok_iff _ _ _).mpr
          ⟨hall, hj, hm, hi, Or.inr ⟨pv, hpv, hpd⟩⟩)
  · intro fields iv hi hdi
    apply classifyWith_invalid_of_not_ok
    · intro n hn
      rw [peekNotificationWith_error_of_all_false
            (all_keys_false_of_mem (lookupField_some_mem hi)
              (by decide))] at hn
      exact Except.noConfusion hn
    · intro c hc
      rw [peekMethodCallWith_ok_iff] at hc
      have h2 := hc.2.2.2.1
      rw [hi] at h2
      have hiv : iv = c.id.toValue := Option.some.inj h2
      rw [hiv, decodeId_toValue] at hdi
      exact Except.noConfusion hdi

/-- C4 (witness): the spec's round-trip scenario 2 classifies as a
MethodCall with id `1` preserved, and a concrete object whose `id` is a
boolean classifies as Invalid. -/
theorem methodCall_classification_witness :
    classify (Value.obj [("jsonrpc", Value.str "2.0"),
        ("method", Value.str "update"),
        ("params", Value.arr [Value.num 1, Value.num 2]),
        ("id", Value.num 1)]) =
      Call.methodCall ⟨Version.v2, "update",
        some (Params.arr [Value.num 1, Value.num 2]), Id.num 1⟩ ∧
    classify (Value.obj [("jsonrpc", Value.str "2.0"),
        ("method", Value.str "call"), ("id", Value.bool true)]) =
      Call.invalid :=
  ⟨(methodCall_classification.1
      [("jsonrpc", Value.str "2.0"), ("method", Value.str "update"),
       ("params", Value.arr [Value.num 1, Value.num 2]),
       ("id", Value.num 1)]
      "update" (Id.num 1) rfl rfl rfl rfl).2
      (Value.arr [Value.num 1, Value.num 2])
      (some (Params.arr [Value.num 1, Value.num 2])) rfl rfl,
   methodCall_classification.2
      [("jsonrpc", Value.str "2.0"), ("method", Value.str "call"),
       ("id", Value.bool true)]
      (Value.bool true) rfl rfl⟩

/-- C5: resolving a top-level JSON array (empty included) yields
`Request.batch` of the element-wise independent classifications — length and
per-position correspondence preserved, an unclassifiable element becoming
`Call.invalid` at its position via `classify` without affecting siblings —
and resolving any non-array value yields `Request.single` of its
classification. -/
theorem resolve_spec (xs : List Value) :
    resolve (Value.arr xs) = Request.batch (xs.map classify) ∧
    (xs.map classify).length = xs.length ∧
    (∀ i : Nat, (xs.map classify)[i]? = xs[i]?.map classify) ∧
    resolve (Value.arr []) = Request.batch [] ∧
    (∀ v : Value, (∀ ys : List Value, v ≠ Value.arr ys) →
       resolve v = Request.single (classify v)) := by
  refine ⟨rfl, List.length_map _ _, fun i => List.getElem?_map classify xs i,
          rfl, fun v hv => ?_⟩
  cases v
  case arr ys => exact absurd rfl (hv ys)
  all_goals rfl

/-- C5 (witness): a singleton array resolves to a batch, and a bare string
resolves to a single call. -/
theorem resolve_spec_witness :
    resolve (Value.arr [Value.num 1]) =
      Request.batch ([Value.num 1].map classify) ∧
    resolve (Value.str "x") = Request.single (classify (Value.str "x")) :=
  ⟨(resolve_spec [Value.num 1]).1,
   (resolve_spec []).2.2.2.2 (Value.str "x")
     (fun _ hy => Value.noConfusion hy)⟩

/-- C6: every object missing `method` classifies as Invalid; every object
whose `jsonrpc` field is absent or holds anything but the string "2.0"
classifies as Invalid; and every bare non-object, non-array value (null,
boolean, number, string) classifies as Invalid. -/
theorem invalid_classification :
    (∀ fields, lookupField "method" fields = none →
       classify (Value.obj fields) = Call.invalid) ∧
    (∀ fields, lookupField "jsonrpc" fields = none →
       classify (Value.obj fields) = Call.invalid) ∧
    (∀ fields jv, lookupField "jsonrpc" fields = some jv →
       jv ≠ Value.str "2.0" → classify (Value.obj fields) = Call.invalid) ∧
    classify Value.null = Call.invalid ∧
    (∀ b, classify (Value.bool b) = Call.invalid) ∧
    (∀ i, classify (Value.num i) = Call.invalid) ∧
    (∀ s, classify (Value.str s) = Call.invalid) := by
  refine ⟨?_, ?_, ?_, rfl, fun b => rfl, fun i => rfl, fun s => rfl⟩
  · intro fields hmn
    apply classifyWith_invalid_of_not_ok
    · intro n hn
      rw [peekNotificationWith_ok_iff] at hn
      rw [hmn] at hn
      exact absurd hn.2.2.1 (by simp)
    · intro c hc
      rw [peekMethodCallWith_ok_iff] at hc
      rw [hmn] at hc
      exact absurd hc.2.2.1 (by simp)
  · intro fields hjn
    apply classifyWith_invalid_of_not_ok
    · intro n hn
      rw [peekNotificationWith_ok_iff] at hn
      rw [hjn] at hn
      exact absurd hn.2.1 (by simp)
    · intro c hc
      rw [peekMethodCallWith_ok_iff] at hc
      rw [hjn] at hc
      exact absurd hc.2.1 (by simp)
  · intro fields jv hj hne
    apply classifyWith_invalid_of_not_ok
    · intro n hn
      rw [peekNotificationWith_ok_iff] at hn
      rw [hj] at hn
      exact hne (Option.some.inj hn.2.1)
    · intro c hc
      rw [peekMethodCallWith_ok_iff] at hc
      rw [hj] at hc
      exact hne (Option.some.inj hc.2.1)

/-- C6 (witness): a concrete object without `method` (and without
`jsonrpc`) and a bare string both classify as Invalid. -/
theorem invalid_classification_witness :
    classify (Value.obj [("x", Value.null)]) = Call.invalid ∧
    classify (Value.str "hello") = Call.invalid :=
  ⟨invalid_classification.1 [("x", Value.null)] rfl,
   invalid_classification.2.2.2.2.2.2 "hello"⟩

/-- C7: field-level validation is strict — an object carrying any key
outside a probed shape's declared fields makes that probe fail (for any
external params decoder), and a key outside even the MethodCall fields makes
the whole object classify as `Call.invalid`. -/
theorem unknown_key_rejected
    (pdec : Value → Except Unit (Option Params))
    (fields : List (String × Value)) (k : String) (w : Value)
    (hmem : (k, w) ∈ fields) :
    (k ∉ notifKeys →
       peekNotificationWith pdec (Value.obj fields) = .error ()) ∧
    (k ∉ methodCallKeys →
       peekMethodCallWith pdec (Value.obj fields) = .error ()) ∧
    (k ∉ methodCallKeys → classify (Value.obj fields) = Call.invalid) := by
  refine ⟨?_, ?_, ?_⟩
  · intro hk
    exact peekNotificationWith_error_of_all_false
      (all_keys_false_of_mem hmem hk)
  · intro hk
    exact peekMethodCallWith_error_of_all_false
      (all_keys_false_of_mem hmem hk)
  · intro hk
    have hk2 : k ∉ notifKeys := by
      intro hin
      apply hk
      simp only [notifKeys, methodCallKeys] at hin ⊢
      simp at hin ⊢
      tauto
    apply classifyWith_invalid_of_not_ok
    · intro n hn
      rw [peekNotificationWith_error_of_all_false
            (all_keys_false_of_mem hmem hk2)] at hn
      exact Except.noConfusion hn
    · intro c hc
      rw [peekMethodCallWith_error_of_all_false
            (all_keys_false_of_mem hmem hk)] at hc
      exact Except.noConfusion hc

/-- C7 (witness): a concrete object that resembles a Notification but
carries an extra `flag` key fails the Notification probe and classifies as
Invalid. -/
theorem unknown_key_rejected_witness :
    peekNotificationWith decodeOptParams
      (Value.obj [("jsonrpc", Value.str "2.0"), ("method", Value.str "m"),
                  ("flag", Value.null)]) = .error () ∧
    classify (Value.obj [("jsonrpc", Value.str "2.0"),
        ("method", Value.str "m"), ("flag", Value.null)]) = Call.invalid := by
  have h := unknown_key_rejected decodeOptParams
    [("jsonrpc", Value.str "2.0"), ("method", Value.str "m"),
     ("flag", Value.null)] "flag" Value.null (by simp)
  exact ⟨h.1 (by decide), h.2.2 (by decide)⟩

/-- C8 (counterexample): an otherwise-valid object whose `method` is the
empty string IS accepted — it classifies as a Notification — contradicting
the claim that neither probe accepts an empty method. -/
theorem empty_method_accepted_counterexample :
    classify (Value.obj [("jsonrpc", Value.str "2.0"),
        ("method", Value.str "")]) =
      Call.notification ⟨Version.v2, "", none⟩ := rfl

/-- C8 (amended): the `method` field accepted by a successful classification
is any JSON string, the empty string included — the core requires only
presence and string-ness, enforcing no non-emptiness constraint. -/
theorem method_any_string (s : String) :
    classify (Value.obj [("jsonrpc", Value.str "2.0"),
        ("method", Value.str s)]) =
      Call.notification ⟨Version.v2, s, none⟩ ∧
    classify (Value.obj [("jsonrpc", Value.str "2.0"),
        ("method", Value.str s), ("id", Value.null)]) =
      Call.methodCall ⟨Version.v2, s, none, Id.null⟩ := by
  constructor
  · exact classifyWith_notification
      ((peekNotificationWith_ok_iff _ _ _).mpr
        ⟨rfl, rfl, rfl, Or.inl ⟨rfl, rfl⟩⟩)
  · have hnotif : peekNotificationWith decodeOptParams (Value.obj
        [("jsonrpc", Value.str "2.0"), ("method", Value.str s),
         ("id", Value.null)]) = .error () :=
      peekNotificationWith_error_of_all_false
        (@all_keys_false_of_mem _ "id" Value.null notifKeys (by simp)
          (by decide))
    exact classifyWith_methodCall hnotif
      ((peekMethodCallWith_ok_iff _ _ _).mpr
        ⟨rfl, rfl, rfl, rfl, Or.inl ⟨rfl, rfl⟩⟩)

/-- C9: the core does not itself equate `params: null` with an absent
`params` field — for EVERY external params-field decoder `pdec` and every
otherwise well-formed call object of either shape (Notification-shaped,
without an `id` key, or MethodCall-shaped, with a valid `id`), the
classification of a present `params` value (in particular `null`) is
exactly what `pdec` returns on that value, while an absent `params` yields
`none` independently of `pdec`; whether present-`null` and absent coincide
is decided solely by `pdec`. -/
theorem params_decoder_decides :
    (∀ (pdec : Value → Except Unit (Option Params))
       (fields : List (String × Value)) (m : String) (pv : Value),
       fields.all (fun kv => decide (kv.1 ∈ notifKeys)) = true →
       lookupField "jsonrpc" fields = some (Value.str "2.0") →
       lookupField "method" fields = some (Value.str m) →
       lookupField "params" fields = some pv →
       classifyWith pdec (Value.obj fields) =
         match pdec pv with
         | .ok p => Call.notification ⟨Version.v2, m, p⟩
         | .error _ => Call.invalid) ∧
    (∀ (pdec : Value → Except Unit (Option Params))
       (fields : List (String × Value)) (m : String),
       fields.all (fun kv => decide (kv.1 ∈ notifKeys)) = true →
       lookupField "jsonrpc" fields = some (Value.str "2.0") →
       lookupField "method" fields = some (Value.str m) →
       lookupField "params" fields = none →
       classifyWith pdec (Value.obj fields) =
         Call.notification ⟨Version.v2, m, none⟩) ∧
    (∀ (pdec : Value → Except Unit (Option Params))
       (fields : List (String × Value)) (m : String) (i : Id) (pv : Value),
       fields.all (fun kv => decide (kv.1 ∈ methodCallKeys)) = true →
       lookupField "jsonrpc" fields = some (Value.str "2.0") →
       lookupField "method" fields = some (Value.str m) →
       lookupField "id" fields = some i.toValue →
       lookupField "params" fields = some pv →
       classifyWith pdec (Value.obj fields) =
         match pdec pv with
         | .ok p => Call.methodCall ⟨Version.v2, m, p, i⟩
         | .error _ => Call.invalid) ∧
    (∀ (pdec : Value → Except Unit (Option Params))
       (fields : List (String × Value)) (m : String) (i : Id),
       fields.all (fun kv => decide (kv.1 ∈ methodCallKeys)) = true →
       lookupField "jsonrpc" fields = some (Value.str "2.0") →
       lookupField "method" fields = some (Value.str m) →
       lookupField "id" fields = some i.toValue →
       lookupField "params" fields = none →
       classifyWith pdec (Value.obj fields) =
         Call.methodCall ⟨Version.v2, m, none, i⟩) := by
  refine ⟨?_, ?_, ?_, ?_⟩
  · intro pdec fields m pv hall hj hm hpv
    cases hpd : pdec pv with
    | ok p =>
      exact classifyWith_notification
        ((peekNotificationWith_ok_iff _ _ _).mpr
          ⟨hall, hj, hm, Or.inr ⟨pv, hpv, hpd⟩⟩)
    | error e =>
      apply classifyWith_invalid_of_not_ok
      · intro n hn
        rw [peekNotificationWith_ok_iff] at hn
        rcases hn.2.2.2 with ⟨hpn, _⟩ | ⟨pv2, hpv2, hpd2⟩
        · rw [hpv] at hpn
          exact Option.noConfusion hpn
        · rw [hpv] at hpv2
          cases Option.some.inj hpv2
          rw [hpd] at hpd2
          exact Except.noConfusion hpd2
      · intro c hc
        rw [peekMethodCallWith_ok_iff] at hc
        have h2 := hc.2.2.2.1
        rw [lookupField_id_none_of_notifKeys hall] at h2
        exact Option.noConfusion h2
  · intro pdec fields m hall hj hm hpn
    exact classifyWith_notification
      ((peekNotificationWith_ok_iff _ _ _).mpr
        ⟨hall, hj, hm, Or.inl ⟨hpn, rfl⟩⟩)
  · intro pdec fields m i pv hall hj hm hi hpv
    have hnotif : peekNotificationWith pdec (Value.obj fields) =
        .error () :=
      peekNotificationWith_error_of_all_false
        (all_keys_false_of_mem (lookupField_some_mem hi) (by decide))
    cases hpd : pdec pv with
    | ok p =>
      exact classifyWith_methodCall hnotif
        ((peekMethodCallWith_ok_iff _ _ _).mpr
          ⟨hall, hj, hm, hi, Or.inr ⟨pv, hpv, hpd⟩⟩)
    | error e =>
      apply classifyWith_invalid_of_not_ok
      · intro n hn
        rw [hnotif] at hn
        exact Except.noConfusion hn
      · intro c hc
        rw [peekMethodCallWith_ok_iff] at hc
        rcases hc.2.2.2.2 with ⟨hpn, _⟩ | ⟨pv2, hpv2, hpd2⟩
        · rw [hpv] at hpn
          exact Option.noConfusion hpn
        · rw [hpv] at hpv2
          cases Option.some.inj hpv2
          rw [hpd] at hpd2
          exact Except.noConfusion hpd2
  · intro pdec fields m i hall hj hm hi hpn
    have hnotif : peekNotificationWith pdec (Value.obj fields) =
        .error () :=
      peekNotificationWith_error_of_all_false
        (all_keys_false_of_mem (lookupField_some_mem hi) (by decide))
    exact classifyWith_methodCall hnotif
      ((peekMethodCallWith_ok_iff _ _ _).mpr
        ⟨hall, hj, hm, hi, Or.inl ⟨hpn, rfl⟩⟩)

/-- C9 (witness): with the concrete external decoder, a present
`params: null` on a Notification-shaped and on a MethodCall-shaped object
decodes to exactly what that decoder returns on `null`. -/
theorem params_decoder_decides_witness :
    classifyWith decodeOptParams (Value.obj [("jsonrpc", Value.str "2.0"),
        ("method", Value.str "ping"), ("params", Value.null)]) =
      (match decodeOptParams Value.null with
       | .ok p => Call.notification ⟨Version.v2, "ping", p⟩
       | .error _ => Call.invalid) ∧
    classifyWith decodeOptParams (Value.obj [("jsonrpc", Value.str "2.0"),
        ("method", Value.str "ping"), ("params", Value.null),
        ("id", Value.num 7)]) =
      (match decodeOptParams Value.null with
       | .ok p => Call.methodCall ⟨Version.v2, "ping", p, Id.num 7⟩
       | .error _ => Call.invalid) :=
  ⟨params_decoder_decides.1 decodeOptParams
      [("jsonrpc", Value.str "2.0"), ("method", Value.str "ping"),
       ("params", Value.null)]
      "ping" Value.null rfl rfl rfl rfl,
   params_decoder_decides.2.2.1 decodeOptParams
      [("jsonrpc", Value.str "2.0"), ("method", Value.str "ping"),
       ("params", Value.null), ("id", Value.num 7)]
      "ping" (Id.num 7) Value.null rfl rfl rfl rfl rfl⟩

/-- C10: decoding is deterministic and side-effect-free — the embedding is a
pure function of the input value, so classification and resolution of equal
inputs are equal. -/
theorem classification_deterministic (v₁ v₂ : Value) (h : v₁ = v₂) :
    classify v₁ = classify v₂ ∧ resolve v₁ = resolve v₂ := by
  subst h
  exact ⟨rfl, rfl⟩

/-- C10 (witness): determinism instantiated at a concrete input. -/
theorem classification_deterministic_witness :
    classify Value.null = classify Value.null ∧
      resolve Value.null = resolve Value.null :=
  classification_deterministic Value.null Value.null rfl

end JsonRpc
